import Mathlib

/-!
Verification of the CRAC maintenance survival pipeline.

The development shallowly embeds the algorithmic core of the repository:
  - `build_intervals_with_current_time` (src/utils/data_processing.py, lines 92-203),
    modelled per unit group: pandas `df.groupby(id_col)` iterates the sorted rows of
    one unit; the Lean function takes that group as a list of rows.
  - `get_last_critical_alarm_time` (src/utils/alerts.py, lines 36-48).
  - `detect_failures` (src/utils/alerts.py, lines 5-34).
  - the validation gate of `train_rsf_model` (src/utils/model.py, lines 23-57).
  - the threshold search of `calculate_time_to_threshold_risk`
    (src/utils/model.py, lines 103-119).

Timestamps are modelled as rational numbers of hours; pandas timestamp subtraction
divided by 3600.0 corresponds to plain subtraction here.  numpy float arithmetic is
modelled by exact rational arithmetic.
-/

namespace CRAC

/-- One alarm row of a single unit's group, after column normalization:
`Fecha_alarma` (as hours), the `is_failure_bool` flag, and `Severidad`. -/
structure UnitRow where
  time : ℚ
  isFail : Bool
  sev : Int
deriving DecidableEq

instance : Inhabited UnitRow := ⟨⟨0, false, 0⟩⟩

/-- One record appended to `recs` in build_intervals_with_current_time.
The source's `end` key is spelled `stop` (`end` is a Lean keyword); the
`np.nan` sentinel of `time_since_last_alarm_h` is spelled `none`. -/
structure Interval where
  start : ℚ
  stop : ℚ
  duration_hours : ℚ
  event : ℕ
  total_alarms : ℕ
  alarms_last_24h : ℕ
  time_since_last_alarm_h : Option ℚ
  current_time_elapsed : ℚ
  last_critical_time : Option ℚ
deriving DecidableEq

instance : Inhabited Interval := ⟨⟨0, 0, 0, 0, 0, 0, none, 0, none⟩⟩

/-- `times[i]` of the unit's group (total function; indices used stay in range). -/
def timeAt (g : List UnitRow) (i : ℕ) : ℚ := (g.getD i default).time

/-- get_last_critical_alarm_time (src/utils/alerts.py, lines 36-48), restricted to
the rows of one device: max alarm time among rows with `Severidad >= sev_thr`,
falling back to the max over all of the device's rows, `None` if it has none. -/
def get_last_critical_alarm_time (g : List UnitRow) (sevThr : Option Int) : Option ℚ :=
  match g with
  | [] => none
  | _ :: _ =>
    let crit : List UnitRow := match sevThr with
      | some thr => g.filter (fun r => decide (thr ≤ r.sev))
      | none => g
    match (crit.map (fun r => r.time)).max? with
    | some t => some t
    | none => (g.map (fun r => r.time)).max?

/-- `np.where(is_fail)[0]`: the ascending indices of rows flagged as failures. -/
def failure_indices (g : List UnitRow) : List ℕ :=
  (List.range g.length).filter (fun i => (g.getD i default).isFail)

/-- `np.sum((times >= lookback_time) & (times < start_time))` with a 24h lookback. -/
def alarms_in_24h_window (g : List UnitRow) (startTime : ℚ) : ℕ :=
  (g.filter (fun r => decide (startTime - 24 ≤ r.time ∧ r.time < startTime))).length

/-- The event record appended for failure index `endIdx` with cursor `startIdx`
(src/utils/data_processing.py, lines 151-177). -/
def mkEventInterval (g : List UnitRow) (cte : ℚ) (lct : Option ℚ)
    (startIdx endIdx : ℕ) : Interval :=
  let startTime := timeAt g startIdx
  let endTime := timeAt g endIdx
  { start := startTime
    stop := endTime
    duration_hours := endTime - startTime
    event := 1
    total_alarms := endIdx - startIdx
    alarms_last_24h := alarms_in_24h_window g startTime
    time_since_last_alarm_h :=
      if startIdx = 0 then none else some (startTime - timeAt g (startIdx - 1))
    current_time_elapsed := cte
    last_critical_time := lct }

/-- The trailing censored record (src/utils/data_processing.py, lines 181-201). -/
def mkCensoredInterval (g : List UnitRow) (now cte : ℚ) (lct : Option ℚ)
    (startIdx : ℕ) : Interval :=
  let startTime := timeAt g startIdx
  { start := startTime
    stop := now
    duration_hours := now - startTime
    event := 0
    total_alarms := g.length - startIdx
    alarms_last_24h := alarms_in_24h_window g startTime
    time_since_last_alarm_h := some (now - timeAt g (g.length - 1))
    current_time_elapsed := cte
    last_critical_time := lct }

/-- The single censored record of a unit with no detected failures
(src/utils/data_processing.py, lines 126-143); note the literal
`alarms_last_24h: 0` of the source. -/
def mkNoFailureInterval (g : List UnitRow) (now cte : ℚ) (lct : Option ℚ) : Interval :=
  let startTime := timeAt g 0
  { start := startTime
    stop := now
    duration_hours := now - startTime
    event := 0
    total_alarms := g.length
    alarms_last_24h := 0
    time_since_last_alarm_h := some (now - timeAt g (g.length - 1))
    current_time_elapsed := cte
    last_critical_time := lct }

/-- `current_time_elapsed` (src/utils/data_processing.py, lines 116-121):
hours from the last critical alarm to `now`, `0.0` when there is none. -/
def current_time_elapsed_of (g : List UnitRow) (now : ℚ) (sevThr : Option Int) : ℚ :=
  match get_last_critical_alarm_time g sevThr with
  | some t => now - t
  | none => 0

/-- The `for fi in fail_indices` cursor loop (src/utils/data_processing.py,
lines 145-178): skip when `fi <= start_idx` (setting the cursor to `fi`),
otherwise append an event record and advance the cursor to `fi`.
Returns the appended records and the final cursor. -/
def cursorLoop (g : List UnitRow) (cte : ℚ) (lct : Option ℚ) :
    List ℕ → ℕ → List Interval × ℕ
  | [], startIdx => ([], startIdx)
  | fi :: rest, startIdx =>
    if fi ≤ startIdx then
      cursorLoop g cte lct rest fi
    else
      let res := cursorLoop g cte lct rest fi
      (mkEventInterval g cte lct startIdx fi :: res.1, res.2)

/-- build_intervals_with_current_time (src/utils/data_processing.py, lines 92-203)
for one unit's group `g` (the body of the `df.groupby(id_col)` loop, rows sorted
by time by the caller), with `now` the single wall-clock snapshot of the call. -/
def build_intervals_with_current_time (g : List UnitRow) (now : ℚ)
    (sevThr : Option Int) : List Interval :=
  match g with
  | [] => []
  | _ :: _ =>
    let lct := get_last_critical_alarm_time g sevThr
    let cte := current_time_elapsed_of g now sevThr
    match failure_indices g with
    | [] => [mkNoFailureInterval g now cte lct]
    | fi :: rest =>
      let res := cursorLoop g cte lct (fi :: rest) 0
      if res.2 < g.length then
        res.1 ++ [mkCensoredInterval g now cte lct res.2]
      else
        res.1

/-- The six-row unit of the end-to-end scenario: alarms at hours 0, 10, 50
(failure), 60, 200 (failure), 260 (not a failure). -/
def gC3 : List UnitRow :=
  [⟨0, false, 3⟩, ⟨10, false, 3⟩, ⟨50, true, 3⟩, ⟨60, false, 3⟩, ⟨200, true, 3⟩,
   ⟨260, false, 3⟩]

theorem getD_mem {α : Type} (l : List α) (n : ℕ) (d : α) (h : n < l.length) :
    l.getD n d ∈ l := by
  rw [List.getD_eq_getElem l d h]
  exact List.getElem_mem h

theorem getLastD_mem_of_ne_nil : ∀ (l : List ℕ) (d : ℕ), l ≠ [] → l.getLastD d ∈ l := by
  intro l
  induction l with
  | nil => intro d h; exact absurd rfl h
  | cons a t ih =>
    intro d _
    rw [List.getLastD_cons]
    cases t with
    | nil => simp [List.getLastD]
    | cons b t' => exact List.mem_cons_of_mem a (ih a (by simp))

theorem failure_indices_pairwise (g : List UnitRow) :
    List.Pairwise (fun a b => a < b) (failure_indices g) :=
  List.Pairwise.filter _ (List.pairwise_lt_range g.length)

theorem failure_indices_lt (g : List UnitRow) (f : ℕ) (hf : f ∈ failure_indices g) :
    f < g.length :=
  List.mem_range.mp (List.mem_filter.mp hf).1

theorem cursorLoop_spec (g : List UnitRow) (cte : ℚ) (lct : Option ℚ) :
    ∀ (fis : List ℕ) (s : ℕ), List.Pairwise (fun a b => a < b) fis →
    (∀ f ∈ fis, s ≤ f) →
    (cursorLoop g cte lct fis s).2 = fis.getLastD s ∧
    s ≤ fis.getLastD s ∧
    ((cursorLoop g cte lct fis s).1.map Interval.total_alarms).sum = fis.getLastD s - s := by
  intro fis
  induction fis with
  | nil => intro s _ _; simp [cursorLoop, List.getLastD]
  | cons fi rest ih =>
    intro s hpw hle
    have hps := List.pairwise_cons.mp hpw
    have hfi : s ≤ fi := hle fi (List.mem_cons_self fi rest)
    have hrest : ∀ f ∈ rest, fi ≤ f := fun f hf => (hps.1 f hf).le
    have ihr := ih fi hps.2 hrest
    rw [List.getLastD_cons]
    by_cases h : fi ≤ s
    · have hfis : fi = s := le_antisymm h hfi
      simp only [cursorLoop, if_pos h]
      rw [hfis] at ihr ⊢
      exact ihr
    · simp only [cursorLoop, if_neg h]
      refine ⟨ihr.1, le_trans hfi ihr.2.1, ?_⟩
      simp only [List.map_cons, List.sum_cons, ihr.2.2, mkEventInterval]
      have h1 : s < fi := not_le.mp h
      have h2 : fi ≤ rest.getLastD fi := ihr.2.1
      omega

theorem cursorLoop_mem (g : List UnitRow) (cte : ℚ) (lct : Option ℚ) :
    ∀ (fis : List ℕ) (s : ℕ) (iv : Interval),
    iv ∈ (cursorLoop g cte lct fis s).1 →
    ∃ a b, a < b ∧ iv = mkEventInterval g cte lct a b := by
  intro fis
  induction fis with
  | nil => intro s iv h; simp [cursorLoop] at h
  | cons fi rest ih =>
    intro s iv hiv
    by_cases h : fi ≤ s
    · simp only [cursorLoop, if_pos h] at hiv
      exact ih fi iv hiv
    · simp only [cursorLoop, if_neg h] at hiv
      rcases List.mem_cons.mp hiv with h1 | h2
      · exact ⟨s, fi, not_le.mp h, h1⟩
      · exact ih fi iv h2

theorem cursorLoop_noskip_len (g : List UnitRow) (cte : ℚ) (lct : Option ℚ) :
    ∀ (fis : List ℕ) (s : ℕ), List.Pairwise (fun a b => a < b) fis →
    (∀ f ∈ fis, s < f) →
    (cursorLoop g cte lct fis s).1.length = fis.length := by
  intro fis
  induction fis with
  | nil => intro s _ _; simp [cursorLoop]
  | cons fi rest ih =>
    intro s hpw hlt
    have hps := List.pairwise_cons.mp hpw
    have h : ¬ fi ≤ s := not_le.mpr (hlt fi (List.mem_cons_self fi rest))
    simp only [cursorLoop, if_neg h, List.length_cons]
    rw [ih fi hps.2 hps.1]

theorem build_cons_nofail (g : List UnitRow) (now : ℚ) (sevThr : Option Int)
    (hg : g ≠ []) (hfi : failure_indices g = []) :
    build_intervals_with_current_time g now sevThr =
      [mkNoFailureInterval g now (current_time_elapsed_of g now sevThr)
        (get_last_critical_alarm_time g sevThr)] := by
  cases g with
  | nil => exact absurd rfl hg
  | cons r0 grest => simp only [build_intervals_with_current_time, hfi]

theorem build_cons_failures (g : List UnitRow) (now : ℚ) (sevThr : Option Int)
    (f : ℕ) (fs : List ℕ) (hfi : failure_indices g = f :: fs) :
    build_intervals_with_current_time g now sevThr =
      (cursorLoop g (current_time_elapsed_of g now sevThr)
        (get_last_critical_alarm_time g sevThr) (f :: fs) 0).1 ++
      [mkCensoredInterval g now (current_time_elapsed_of g now sevThr)
        (get_last_critical_alarm_time g sevThr) ((f :: fs).getLastD 0)] := by
  have hgne : g ≠ [] := by
    intro h
    rw [h] at hfi
    simp [failure_indices] at hfi
  have hpw : List.Pairwise (fun a b => a < b) (f :: fs) := by
    rw [← hfi]; exact failure_indices_pairwise g
  have hle : ∀ x ∈ f :: fs, 0 ≤ x := fun x _ => Nat.zero_le x
  obtain ⟨h2, _, _⟩ := cursorLoop_spec g (current_time_elapsed_of g now sevThr)
    (get_last_critical_alarm_time g sevThr) (f :: fs) 0 hpw hle
  have hmem : (f :: fs).getLastD 0 ∈ failure_indices g := by
    rw [hfi]; exact getLastD_mem_of_ne_nil _ 0 (by simp)
  have hlt : (f :: fs).getLastD 0 < g.length := failure_indices_lt g _ hmem
  cases g with
  | nil => exact absurd rfl hgne
  | cons r0 grest =>
    simp only [build_intervals_with_current_time, hfi]
    rw [h2, if_pos hlt]

/-- Claim C1 (counterexample): for the unit with rows alarm@0h, failure@10h
(k = 1 failure, no alarm rows after the last failure), the claim predicts
exactly 1 interval with event=true, i.e. event list `[1]`; the code also emits
a trailing censored interval, so the event list is `[1, 0]`. -/
theorem claim_C1_counterexample :
    (build_intervals_with_current_time [⟨0, false, 1⟩, ⟨10, true, 1⟩] 20 none).map
      Interval.event ≠ [1] := by decide

/-- Claim C1 (amended): for every unit whose records contain k >= 1 detected
failures, none of them at the unit's first record, and whose last record is a
failure, build_intervals_with_current_time returns exactly k + 1 intervals:
k event intervals (event=1) followed by one trailing censored interval
(event=0), and the total_alarms of all k + 1 intervals sum to the unit's total
row count. -/
theorem claim_C1 (g : List UnitRow) (now : ℚ) (sevThr : Option Int)
    (hk : failure_indices g ≠ [])
    (h0 : 0 ∉ failure_indices g)
    (hlast : g.length - 1 ∈ failure_indices g) :
    (build_intervals_with_current_time g now sevThr).length =
      (failure_indices g).length + 1 ∧
    ((build_intervals_with_current_time g now sevThr).dropLast.all
      (fun iv => iv.event == 1)) = true ∧
    ((build_intervals_with_current_time g now sevThr).getLast?).map Interval.event =
      some 0 ∧
    ((build_intervals_with_current_time g now sevThr).map Interval.total_alarms).sum =
      g.length := by
  cases hfi : failure_indices g with
  | nil => exact absurd hfi hk
  | cons f fs =>
    rw [build_cons_failures g now sevThr f fs hfi]
    have hpw : List.Pairwise (fun a b => a < b) (f :: fs) := by
      rw [← hfi]; exact failure_indices_pairwise g
    have hpos : ∀ x ∈ f :: fs, 0 < x := by
      intro x hx
      rcases Nat.eq_zero_or_pos x with h | h
      · rw [hfi] at h0; rw [h] at hx; exact absurd hx h0
      · exact h
    have hle : ∀ x ∈ f :: fs, 0 ≤ x := fun x _ => Nat.zero_le x
    obtain ⟨_, _, hsum⟩ := cursorLoop_spec g (current_time_elapsed_of g now sevThr)
      (get_last_critical_alarm_time g sevThr) (f :: fs) 0 hpw hle
    have hmem : (f :: fs).getLastD 0 ∈ failure_indices g := by
      rw [hfi]; exact getLastD_mem_of_ne_nil _ 0 (by simp)
    have hlt : (f :: fs).getLastD 0 < g.length := failure_indices_lt g _ hmem
    refine ⟨?_, ?_, ?_, ?_⟩
    · rw [List.length_append,
        cursorLoop_noskip_len g (current_time_elapsed_of g now sevThr)
          (get_last_critical_alarm_time g sevThr) (f :: fs) 0 hpw hpos]
      simp
    · rw [List.dropLast_concat, List.all_eq_true]
      intro iv hiv
      obtain ⟨a, b, _, hab⟩ := cursorLoop_mem g (current_time_elapsed_of g now sevThr)
        (get_last_critical_alarm_time g sevThr) (f :: fs) 0 iv hiv
      rw [hab]
      rfl
    · rw [List.getLast?_concat]
      rfl
    · rw [List.map_append, List.sum_append, hsum]
      simp only [List.map_cons, List.map_nil, List.sum_cons, List.sum_nil,
        mkCensoredInterval]
      omega

/-- Claim C1 (witness): the amended theorem applied to the concrete unit
alarm@0h, failure@5h, failure@9h (k = 2, last record a failure), now = 20h. -/
theorem claim_C1_witness :
    (build_intervals_with_current_time [⟨0, false, 1⟩, ⟨5, true, 1⟩, ⟨9, true, 1⟩]
      20 none).length =
      (failure_indices [⟨0, false, 1⟩, ⟨5, true, 1⟩, ⟨9, true, 1⟩]).length + 1 ∧
    ((build_intervals_with_current_time [⟨0, false, 1⟩, ⟨5, true, 1⟩, ⟨9, true, 1⟩]
      20 none).dropLast.all (fun iv => iv.event == 1)) = true ∧
    ((build_intervals_with_current_time [⟨0, false, 1⟩, ⟨5, true, 1⟩, ⟨9, true, 1⟩]
      20 none).getLast?).map Interval.event = some 0 ∧
    ((build_intervals_with_current_time [⟨0, false, 1⟩, ⟨5, true, 1⟩, ⟨9, true, 1⟩]
      20 none).map Interval.total_alarms).sum =
      ([⟨0, false, 1⟩, ⟨5, true, 1⟩, ⟨9, true, 1⟩] : List UnitRow).length :=
  claim_C1 [⟨0, false, 1⟩, ⟨5, true, 1⟩, ⟨9, true, 1⟩] 20 none
    (by decide) (by decide) (by decide)

/-- Claim C2: for every unit group, the sum of total_alarms over all intervals
that build_intervals_with_current_time emits for that unit equals the number of
that unit's alarm rows, regardless of how many failures were detected. -/
theorem claim_C2 (g : List UnitRow) (now : ℚ) (sevThr : Option Int) :
    ((build_intervals_with_current_time g now sevThr).map Interval.total_alarms).sum =
      g.length := by
  rcases List.eq_nil_or_concat g with hg | ⟨_, _, hg⟩
  · rw [hg]; rfl
  · have hgne : g ≠ [] := by rw [hg]; simp
    cases hfi : failure_indices g with
    | nil =>
      rw [build_cons_nofail g now sevThr hgne hfi]
      simp [mkNoFailureInterval]
    | cons f fs =>
      rw [build_cons_failures g now sevThr f fs hfi]
      have hpw : List.Pairwise (fun a b => a < b) (f :: fs) := by
        rw [← hfi]; exact failure_indices_pairwise g
      have hle : ∀ x ∈ f :: fs, 0 ≤ x := fun x _ => Nat.zero_le x
      obtain ⟨_, _, hsum⟩ := cursorLoop_spec g (current_time_elapsed_of g now sevThr)
        (get_last_critical_alarm_time g sevThr) (f :: fs) 0 hpw hle
      have hmem : (f :: fs).getLastD 0 ∈ failure_indices g := by
        rw [hfi]; exact getLastD_mem_of_ne_nil _ 0 (by simp)
      have hlt : (f :: fs).getLastD 0 < g.length := failure_indices_lt g _ hmem
      rw [List.map_append, List.sum_append, hsum]
      simp only [List.map_cons, List.map_nil, List.sum_cons, List.sum_nil,
        mkCensoredInterval]
      omega

/-- Claim C3 (counterexample): on the scenario unit (alarms at hours 0, 10,
50 failure, 60, 200 failure, 260) with now = 300h, the code's total_alarms are
[2, 2, 2], not the claimed [3, 3, 1]. -/
theorem claim_C3_counterexample :
    (build_intervals_with_current_time gC3 300 (some 6)).map Interval.total_alarms ≠
      [3, 3, 1] := by decide

/-- Claim C3 (amended): for the scenario unit, build_intervals_with_current_time
returns 2 event intervals spanning 0h to 50h and 50h to 200h and 1 censored
interval spanning 200h to now, with total_alarms equal to 2, 2 and 2
respectively (each interval counts the rows from its cursor up to but excluding
its terminating failure; the censored interval counts the remaining rows). -/
theorem claim_C3 (now : ℚ) :
    (build_intervals_with_current_time gC3 now (some 6)).map
      (fun iv => (iv.start, iv.stop, iv.event, iv.total_alarms)) =
      [(0, 50, 1, 2), (50, 200, 1, 2), (200, now, 0, 2)] := by
  rfl

/-- Claim C8 (counterexample): for a unit with the single row alarm@0h and no
failures, now = 10h, the unit's first (and only) interval carries
time_since_last_alarm_h = 10 (hours from its last alarm to now), not the null
the claim requires for a first interval. -/
theorem claim_C8_counterexample :
    ((build_intervals_with_current_time [⟨0, false, 1⟩] 10 none).headD
      default).time_since_last_alarm_h ≠ none := by decide

/-- Claim C8 (amended): every interval emitted by
build_intervals_with_current_time satisfies: if it is censored (event=0) its
time_since_last_alarm_h is the hours from the unit's last alarm to now (also
for the first interval of a unit); if it is an event interval (event=1) there
is a cursor index a with start = times[a] and time_since_last_alarm_h the hours
between start and the immediately preceding record times[a-1], null when the
interval starts at the unit's first record. -/
theorem claim_C8 (g : List UnitRow) (now : ℚ) (sevThr : Option Int) (iv : Interval)
    (hmem : iv ∈ build_intervals_with_current_time g now sevThr) :
    (iv.event = 0 →
      iv.time_since_last_alarm_h = some (now - timeAt g (g.length - 1))) ∧
    (iv.event = 1 → ∃ a, iv.start = timeAt g a ∧
      iv.time_since_last_alarm_h =
        (if a = 0 then none else some (timeAt g a - timeAt g (a - 1)))) := by
  have hgne : g ≠ [] := by
    intro h
    rw [h] at hmem
    simp [build_intervals_with_current_time] at hmem
  cases hfi : failure_indices g with
  | nil =>
    rw [build_cons_nofail g now sevThr hgne hfi] at hmem
    rcases List.mem_singleton.mp hmem with rfl
    exact ⟨fun _ => rfl, fun h => by simp [mkNoFailureInterval] at h⟩
  | cons f fs =>
    rw [build_cons_failures g now sevThr f fs hfi] at hmem
    rcases List.mem_append.mp hmem with hev | hcen
    · obtain ⟨a, b, hab, hiv⟩ := cursorLoop_mem g (current_time_elapsed_of g now sevThr)
        (get_last_critical_alarm_time g sevThr) (f :: fs) 0 iv hev
      constructor
      · intro h0
        rw [hiv] at h0
        simp [mkEventInterval] at h0
      · intro _
        exact ⟨a, by rw [hiv]; exact rfl, by rw [hiv]; rfl⟩
    · rcases List.mem_singleton.mp hcen with rfl
      exact ⟨fun _ => rfl, fun h => by simp [mkCensoredInterval] at h⟩

/-- Claim C8 (witness): the amended theorem applied to the scenario unit gC3,
now = 300h, at its trailing censored interval; the unit's last alarm is at
260h, so the censored interval carries some (300 - 260). -/
theorem claim_C8_witness :
    (((build_intervals_with_current_time gC3 300 (some 6)).getD 2
        default).event = 0 →
      ((build_intervals_with_current_time gC3 300 (some 6)).getD 2
        default).time_since_last_alarm_h =
        some (300 - timeAt gC3 (gC3.length - 1))) ∧
    (((build_intervals_with_current_time gC3 300 (some 6)).getD 2
        default).event = 1 → ∃ a,
      ((build_intervals_with_current_time gC3 300 (some 6)).getD 2
        default).start = timeAt gC3 a ∧
      ((build_intervals_with_current_time gC3 300 (some 6)).getD 2
        default).time_since_last_alarm_h =
        (if a = 0 then none else some (timeAt gC3 a - timeAt gC3 (a - 1)))) :=
  claim_C8 gC3 300 (some 6)
    ((build_intervals_with_current_time gC3 300 (some 6)).getD 2 default)
    (getD_mem _ 2 default (by decide))

/-- Claim C10: for every unit group with at least one alarm row, the emitted
interval list is non-empty and its last interval is censored (event=0) with
end equal to the single now snapshot — including when the unit's last record
is a detected failure and when its only failure is at the first row. -/
theorem claim_C10 (g : List UnitRow) (now : ℚ) (sevThr : Option Int)
    (hne : g ≠ []) :
    ((build_intervals_with_current_time g now sevThr).getLast?).map
      (fun iv => (iv.event, iv.stop)) = some (0, now) := by
  cases hfi : failure_indices g with
  | nil =>
    rw [build_cons_nofail g now sevThr hne hfi]
    rfl
  | cons f fs =>
    rw [build_cons_failures g now sevThr f fs hfi, List.getLast?_concat]
    rfl

/-- Claim C10 (witness): the degenerate unit whose only row is a failure at
hour 0 still yields a (single, censored) interval ending at now = 24h. -/
theorem claim_C10_witness :
    ((build_intervals_with_current_time [⟨0, true, 2⟩] 24 (some 6)).getLast?).map
      (fun iv => (iv.event, iv.stop)) = some (0, 24) :=
  claim_C10 [⟨0, true, 2⟩] 24 (some 6) (by decide)

/-- One alarm record as seen by detect_failures: its description text and its
severity. The absence of a column is modelled by the caller-level flag below. -/
structure AlarmRow where
  desc : String
  sev : Int
deriving DecidableEq

/-- The curated failure keyword list of detect_failures
(src/utils/alerts.py, lines 10-17), verbatim. -/
def keywords : List String :=
  ["Low Superheat Critical",
   "Compressor High Head Condition",
   "Returned from Idle Due To Leak Detected",
   "Compressor Drive Failure",
   "El valor de \x27Humedad de suministro\x27 (93 % RH) ha sido muy alto durante mucho tiempo",
   "El valor de \x27Humedad de suministro\x27 (94 % RH) ha sido muy alto durante mucho tiempo"]

/-- The resolved/false-positive exclusion list (src/utils/alerts.py, line 20). -/
def exclude_words : List String :=
  ["cleared", "corrected", "restored", "ok", "normal", "return to normal",
   "solucionado"]

/-- The patterns are joined with a regex bar and fed to `str.contains` with
`regex=True`; unescaped parentheses therefore act as group delimiters, not
literals, so each alternation branch matches as the pattern text with the
parentheses removed. -/
def regexEffective (s : String) : String :=
  String.mk (s.data.filter (fun c => c ≠ '(' ∧ c ≠ ')'))

/-- `series.str.contains(pattern, case=False)` for one alternation branch:
case-insensitive substring occurrence of the branch's effective literal. -/
def containsPattern (text pat : String) : Bool :=
  decide (List.IsInfix (regexEffective pat).toLower.data text.toLower.data)

/-- detect_failures (src/utils/alerts.py, lines 5-34): a row is flagged iff its
description matches some failure keyword and no exclusion word; when the
description column is absent every row is flagged false. `hasDescCol` models
`desc_col in df.columns`; `sevThr` models the unused `sev_thr` argument. -/
def detect_failures (rows : List AlarmRow) (hasDescCol : Bool)
    (sevThr : Option Int) : List Bool :=
  if hasDescCol then
    rows.map (fun r =>
      (keywords.any (fun k => containsPattern r.desc k)) &&
      !(exclude_words.any (fun w => containsPattern r.desc w)))
  else
    rows.map (fun _ => false)

/-- Claim C9: detect_failures depends only on the description column — two row
lists agreeing on descriptions yield identical flags whatever the severities
and the severity threshold; and when the description column is absent every
row is flagged non-failure, aligned to the input rows. -/
theorem claim_C9 :
    (∀ (rows₁ rows₂ : List AlarmRow) (hd : Bool) (thr₁ thr₂ : Option Int),
      rows₁.map AlarmRow.desc = rows₂.map AlarmRow.desc →
      detect_failures rows₁ hd thr₁ = detect_failures rows₂ hd thr₂) ∧
    (∀ (rows : List AlarmRow) (thr : Option Int),
      detect_failures rows false thr = rows.map (fun _ => false)) := by
  constructor
  · intro rows₁ rows₂ hd thr₁ thr₂ hdesc
    unfold detect_failures
    cases hd
    · simp only [if_neg Bool.false_ne_true]
      have h := congrArg List.length hdesc
      simp only [List.length_map] at h
      rw [List.map_const', List.map_const', h]
    · simp only [if_pos rfl]
      have : ∀ (l₁ l₂ : List AlarmRow), l₁.map AlarmRow.desc = l₂.map AlarmRow.desc →
          l₁.map (fun r => (keywords.any (fun k => containsPattern r.desc k)) &&
            !(exclude_words.any (fun w => containsPattern r.desc w))) =
          l₂.map (fun r => (keywords.any (fun k => containsPattern r.desc k)) &&
            !(exclude_words.any (fun w => containsPattern r.desc w))) := by
        intro l₁
        induction l₁ with
        | nil =>
          intro l₂ h
          cases l₂ with
          | nil => rfl
          | cons b t => simp at h
        | cons a t ih =>
          intro l₂ h
          cases l₂ with
          | nil => simp at h
          | cons b t' =>
            simp only [List.map_cons, List.cons.injEq] at h ⊢
            exact ⟨by rw [h.1], ih t' h.2⟩
      exact this rows₁ rows₂ hdesc
  · intro rows thr
    rfl

/-- Claim C9 (witness): same descriptions, different severities and thresholds,
identical flags. -/
theorem claim_C9_witness :
    detect_failures [⟨"Compressor Drive Failure", 1⟩] true (some 9) =
      detect_failures [⟨"Compressor Drive Failure", 7⟩] true none :=
  claim_C9.1 [⟨"Compressor Drive Failure", 1⟩] [⟨"Compressor Drive Failure", 7⟩]
    true (some 9) none (by decide)

/-- The feature list FEATURES of train_rsf_model (src/utils/model.py, line 12). -/
def FEATURES : List String :=
  ["total_alarms", "alarms_last_24h", "time_since_last_alarm_h"]

/-- The `missing_features` computation of train_rsf_model
(src/utils/model.py, line 26). -/
def missing_features (cols : List String) : List String :=
  FEATURES.filter (fun f => !(cols.contains f))

/-- `n_events = int(np.sum(events))` over the interval rows, where each row is
its event flag (cast to bool) paired with its duration_hours. -/
def n_events (rows : List (Bool × ℚ)) : ℕ :=
  (rows.filter (fun r => r.1)).length

/-- `np.std(times) == 0`: the durations have zero variance exactly when they
are all equal. -/
def zero_time_variance (rows : List (Bool × ℚ)) : Bool :=
  rows.all (fun r => r.2 == (rows.headD (false, 0)).2)

/-- The validation gate of train_rsf_model (src/utils/model.py, lines 23-57):
`.error msg` models `raise ValueError(msg)`; `.ok ()` models falling through
to the RandomSurvivalForest fit (the sksurv library call itself, outside this
development). `cols` is the interval schema, `rows` the (event, duration_hours)
columns. -/
def train_rsf_model (cols : List String) (rows : List (Bool × ℚ)) :
    Except String Unit :=
  if rows.length = 0 then
    .error "No hay intervalos para entrenar el modelo."
  else if missing_features cols ≠ [] then
    .error "Faltan caracteristicas necesarias"
  else if n_events rows = 0 then
    .error "No se puede entrenar RSF: todos los samples estan censurados (0 eventos)."
  else if n_events rows < 3 then
    .error "Muy pocos eventos para entrenar modelo confiable. Minimo requerido: 3"
  else if rows.length < 10 then
    .error "Muy pocas muestras para entrenar modelo confiable."
  else if zero_time_variance rows then
    .error "No hay variabilidad en los tiempos de supervivencia."
  else
    .ok ()

/-- Nine intervals with two events and varied durations. -/
def nineRows : List (Bool × ℚ) :=
  [(true, 1), (true, 2), (false, 3), (false, 4), (false, 5), (false, 6),
   (false, 7), (false, 8), (false, 9)]

/-- Claim C4: train_rsf_model raises a validation error (a ValueError, never a
crash) instead of reaching the model fit exactly when a precondition fails:
the interval collection is empty, a required feature column is absent, the
event count is zero, the event count is below 3, the interval count is below
10, or the duration times have zero variance; in particular it raises for 9
intervals with 2 events. -/
theorem claim_C4 :
    (∀ (cols : List String) (rows : List (Bool × ℚ)),
      train_rsf_model cols rows ≠ Except.ok () ↔
        (rows.length = 0 ∨ missing_features cols ≠ [] ∨ n_events rows = 0 ∨
         n_events rows < 3 ∨ rows.length < 10 ∨ zero_time_variance rows = true)) ∧
    train_rsf_model FEATURES nineRows ≠ Except.ok () := by
  constructor
  · intro cols rows
    unfold train_rsf_model
    split_ifs with h1 h2 h3 h4 h5 h6 <;> simp_all
  · exact fun h => Except.noConfusion h

/-- The interior of `np.interp` once the query is at or past the first knot
`p`: linear interpolation on the segment ending at the next knot whose
abscissa is >= t, and the last ordinate (the `right` fill, which the caller
sets to `surv_func.y[-1]`) past the last knot. -/
def interpSeg (t : ℚ) : ℚ × ℚ → List (ℚ × ℚ) → ℚ
  | p, [] => p.2
  | p, q :: rest =>
    if t ≤ q.1 then p.2 + (q.2 - p.2) * (t - p.1) / (q.1 - p.1)
    else interpSeg t q rest

/-- `np.interp(t, surv_func.x, surv_func.y, left=1.0, right=surv_func.y[-1])`
(src/utils/model.py, lines 109-110 and 117-118) over knots given as the two
coordinate arrays. -/
def np_interp (t : ℚ) (xs ys : List ℚ) : ℚ :=
  match xs.zip ys with
  | [] => 1
  | p :: rest => if t < p.1 then 1 else interpSeg t p rest

/-- `risk = 1 - survival_prob` at elapsed time t (src/utils/model.py, line 111). -/
def riskAt (xs ys : List ℚ) (t : ℚ) : ℚ := 1 - np_interp t xs ys

/-- The i-th of `np.linspace(current_time, current_time + max_time, 500)`
(src/utils/model.py, line 106). -/
def time_point (t0 maxT : ℚ) (i : ℕ) : ℚ := t0 + maxT * i / 499

/-- The `for time_point in time_points` scan: first index in `[i, i+k)`
whose sample satisfies the predicate. -/
def scanHit (p : ℕ → Bool) : ℕ → ℕ → Option ℕ
  | _, 0 => none
  | i, k + 1 => if p i then some i else scanHit p (i + 1) k

/-- The threshold search of calculate_time_to_threshold_risk
(src/utils/model.py, lines 103-119), after the unit's latest interval has been
selected and its survival function `surv_func` predicted: scan the 500 sample
points for the first risk >= risk_threshold, else return the capped triple. -/
def calculate_time_to_threshold_risk (survX survY : List ℚ)
    (current_time risk_threshold max_time : ℚ) : ℚ × ℚ × ℚ :=
  match scanHit (fun i =>
      decide (risk_threshold ≤ riskAt survX survY (time_point current_time max_time i)))
      0 500 with
  | some i =>
    (time_point current_time max_time i - current_time,
     riskAt survX survY (time_point current_time max_time i), current_time)
  | none =>
    (max_time, riskAt survX survY (current_time + max_time), current_time)

theorem scanHit_some {p : ℕ → Bool} :
    ∀ (k i j : ℕ), scanHit p i k = some j →
    i ≤ j ∧ j < i + k ∧ p j = true ∧ ∀ m, i ≤ m → m < j → p m = false := by
  intro k
  induction k with
  | zero => intro i j h; exact absurd h (by simp [scanHit])
  | succ k ih =>
    intro i j h
    by_cases hp : p i
    · simp only [scanHit, if_pos hp] at h
      obtain rfl : i = j := Option.some.inj h
      exact ⟨le_refl i, by omega, hp, fun m h1 h2 => by omega⟩
    · simp only [scanHit, if_neg hp] at h
      obtain ⟨h1, h2, h3, h4⟩ := ih (i + 1) j h
      refine ⟨by omega, by omega, h3, ?_⟩
      intro m hm1 hm2
      by_cases hmi : m = i
      · rw [hmi]; exact Bool.eq_false_iff.mpr hp
      · exact h4 m (by omega) hm2

theorem scanHit_none_of {p : ℕ → Bool} :
    ∀ (k i : ℕ), (∀ m, i ≤ m → m < i + k → p m = false) → scanHit p i k = none := by
  intro k
  induction k with
  | zero => intro i _; rfl
  | succ k ih =>
    intro i h
    have hpi : p i = false := h i (le_refl i) (by omega)
    simp only [scanHit, hpi, Bool.false_eq_true, if_false]
    exact ih (i + 1) (fun m h1 h2 => h m (by omega) (by omega))

/-- Claim C5: whenever the threshold search returns hours_to_threshold strictly
below max_time, the interpolated risk at current_time + hours_to_threshold is
at least risk_threshold, and every earlier of the 500 sample points (in
particular the immediately preceding one) has interpolated risk strictly below
risk_threshold. -/
theorem claim_C5 (survX survY : List ℚ) (t0 thr maxT : ℚ) (j : ℕ)
    (hx : List.Chain' (fun a b => a < b) survX)
    (hlen : survX.length = survY.length)
    (hthr0 : 0 < thr) (hthr1 : thr < 1) (hmax : 0 < maxT)
    (hlt : (calculate_time_to_threshold_risk survX survY t0 thr maxT).1 < maxT) :
    thr ≤ riskAt survX survY
      (t0 + (calculate_time_to_threshold_risk survX survY t0 thr maxT).1) ∧
    (time_point t0 maxT j <
        t0 + (calculate_time_to_threshold_risk survX survY t0 thr maxT).1 →
      j < 500 →
      riskAt survX survY (time_point t0 maxT j) < thr) := by
  cases hscan : scanHit (fun i =>
      decide (thr ≤ riskAt survX survY (time_point t0 maxT i))) 0 500 with
  | none =>
    have hcalc : calculate_time_to_threshold_risk survX survY t0 thr maxT =
        (maxT, riskAt survX survY (t0 + maxT), t0) := by
      unfold calculate_time_to_threshold_risk
      rw [hscan]
    rw [hcalc] at hlt
    exact absurd hlt (lt_irrefl maxT)
  | some i =>
    have hcalc : calculate_time_to_threshold_risk survX survY t0 thr maxT =
        (time_point t0 maxT i - t0,
         riskAt survX survY (time_point t0 maxT i), t0) := by
      unfold calculate_time_to_threshold_risk
      rw [hscan]
    rw [hcalc] at hlt ⊢
    obtain ⟨_, _, hpi, hprev⟩ := scanHit_some 500 0 i hscan
    have htp : t0 + ((time_point t0 maxT i - t0,
        riskAt survX survY (time_point t0 maxT i), t0).1) =
        time_point t0 maxT i := by
      show t0 + (time_point t0 maxT i - t0) = time_point t0 maxT i
      ring
    rw [htp]
    refine ⟨of_decide_eq_true hpi, ?_⟩
    intro hj _
    have hji : j < i := by
      have h1 : maxT * (j : ℚ) / 499 < maxT * (i : ℚ) / 499 := by
        simp only [time_point] at hj
        linarith
      have h2 : maxT * (j : ℚ) < maxT * (i : ℚ) := by
        have h3 := mul_lt_mul_of_pos_right h1 (by norm_num : (0 : ℚ) < 499)
        rwa [div_mul_cancel₀ _ (by norm_num : (499 : ℚ) ≠ 0),
          div_mul_cancel₀ _ (by norm_num : (499 : ℚ) ≠ 0)] at h3
      exact_mod_cast (mul_lt_mul_left hmax).mp h2
    have hfalse := hprev j (Nat.zero_le j) hji
    have := of_decide_eq_false hfalse
    exact not_le.mp this

theorem scanHit_hit0 (p : ℕ → Bool) (k : ℕ) (h : p 0 = true) :
    scanHit p 0 (k + 1) = some 0 := by
  simp [scanHit, h]

/-- Claim C5 (witness): survival already 0 by elapsed hour 5 (knots at 0h and
1h), so with current_time 5, threshold 1/2 and horizon 10h the search hits the
very first sample point, returning hours 0 < 10. -/
theorem claim_C5_witness :
    ((1 : ℚ) / 2 ≤ riskAt [0, 1] [1, 0]
      (5 + (calculate_time_to_threshold_risk [0, 1] [1, 0] 5 (1 / 2) 10).1)) ∧
    (time_point 5 10 0 <
        5 + (calculate_time_to_threshold_risk [0, 1] [1, 0] 5 (1 / 2) 10).1 →
      0 < 500 →
      riskAt [0, 1] [1, 0] (time_point 5 10 0) < 1 / 2) := by
  have hval : riskAt [0, 1] [1, 0] (time_point 5 10 0) = 1 := by
    have htp : time_point 5 10 0 = 5 := by
      unfold time_point
      norm_num
    rw [htp]
    show 1 - (if (5 : ℚ) < 0 then 1 else
      (if (5 : ℚ) ≤ 1 then 1 + (0 - 1) * (5 - 0) / (1 - 0) else (0 : ℚ))) = 1
    norm_num
  have hp0 : (fun i => decide ((1 : ℚ) / 2 ≤
      riskAt [0, 1] [1, 0] (time_point 5 10 i))) 0 = true := by
    rw [decide_eq_true_eq, hval]
    norm_num
  have hscan : scanHit (fun i => decide ((1 : ℚ) / 2 ≤
      riskAt [0, 1] [1, 0] (time_point 5 10 i))) 0 500 = some 0 :=
    scanHit_hit0 _ 499 hp0
  have hcalc : calculate_time_to_threshold_risk [0, 1] [1, 0] 5 (1 / 2) 10 =
      (time_point 5 10 0 - 5, riskAt [0, 1] [1, 0] (time_point 5 10 0), 5) := by
    unfold calculate_time_to_threshold_risk
    rw [hscan]
  have hlt : (calculate_time_to_threshold_risk [0, 1] [1, 0] 5 (1 / 2) 10).1 < 10 := by
    rw [hcalc]
    show time_point 5 10 0 - 5 < 10
    unfold time_point
    norm_num
  exact claim_C5 [0, 1] [1, 0] 5 (1 / 2) 10 0
    (by norm_num [List.chain'_cons]) rfl (by norm_num) (by norm_num)
    (by norm_num) hlt

/-- Claim C6: when none of the 500 sample points reaches the risk threshold,
calculate_time_to_threshold_risk returns exactly the capped triple
(max_time, risk at current_time + max_time, current_time). -/
theorem claim_C6 (survX survY : List ℚ) (t0 thr maxT : ℚ)
    (h : ∀ i, i < 500 → riskAt survX survY (time_point t0 maxT i) < thr) :
    calculate_time_to_threshold_risk survX survY t0 thr maxT =
      (maxT, riskAt survX survY (t0 + maxT), t0) := by
  have hnone : scanHit (fun i =>
      decide (thr ≤ riskAt survX survY (time_point t0 maxT i))) 0 500 = none := by
    apply scanHit_none_of
    intro m _ hm
    rw [decide_eq_false_iff_not]
    exact not_le.mpr (h m (by omega))
  unfold calculate_time_to_threshold_risk
  rw [hnone]

theorem riskAt_single_one (t : ℚ) : riskAt [0] [1] t = 0 := by
  show 1 - (if t < (0 : ℚ) then 1 else (1 : ℚ)) = 0
  rw [ite_self, sub_self]

/-- Claim C6 (witness): a unit whose predicted risk stays at 0 — far below the
4/5 threshold — at every one of the 500 samples of the 5000h horizon gets the
capped triple (5000, risk at t0 + 5000, t0). -/
theorem claim_C6_witness :
    calculate_time_to_threshold_risk [0] [1] 0 (4 / 5) 5000 =
      (5000, riskAt [0] [1] (0 + 5000), 0) :=
  claim_C6 [0] [1] 0 (4 / 5) 5000
    (fun i _ => by rw [riskAt_single_one]; norm_num)

theorem chain'_zip_fst {r : ℚ → ℚ → Prop} :
    ∀ (xs ys : List ℚ), List.Chain' r xs →
    List.Chain' (fun p q : ℚ × ℚ => r p.1 q.1) (xs.zip ys) := by
  intro xs
  induction xs with
  | nil => intro ys _; simp
  | cons x xt ih =>
    intro ys hc
    cases ys with
    | nil => simp
    | cons y yt =>
      rw [List.zip_cons_cons, List.chain'_cons']
      refine ⟨?_, ih yt hc.tail⟩
      intro z hz
      cases xt with
      | nil => simp at hz
      | cons x2 xt2 =>
        cases yt with
        | nil => simp at hz
        | cons y2 yt2 =>
          rw [List.zip_cons_cons] at hz
          simp only [List.head?_cons, Option.mem_def, Option.some.injEq] at hz
          rw [← hz]
          exact (List.chain'_cons.mp hc).1

theorem chain'_zip_snd {r : ℚ → ℚ → Prop} :
    ∀ (xs ys : List ℚ), List.Chain' r ys →
    List.Chain' (fun p q : ℚ × ℚ => r p.2 q.2) (xs.zip ys) := by
  intro xs
  induction xs with
  | nil => intro ys _; simp
  | cons x xt ih =>
    intro ys hc
    cases ys with
    | nil => simp
    | cons y yt =>
      rw [List.zip_cons_cons, List.chain'_cons']
      refine ⟨?_, ih yt hc.tail⟩
      intro z hz
      cases xt with
      | nil => simp at hz
      | cons x2 xt2 =>
        cases yt with
        | nil => simp at hz
        | cons y2 yt2 =>
          rw [List.zip_cons_cons] at hz
          simp only [List.head?_cons, Option.mem_def, Option.some.injEq] at hz
          rw [← hz]
          exact (List.chain'_cons.mp hc).1

theorem interpSeg_le_head (t : ℚ) :
    ∀ (pts : List (ℚ × ℚ)) (p : ℚ × ℚ),
    List.Chain' (fun a b : ℚ × ℚ => a.1 < b.1) (p :: pts) →
    List.Chain' (fun a b : ℚ × ℚ => b.2 ≤ a.2) (p :: pts) →
    p.1 ≤ t → interpSeg t p pts ≤ p.2 := by
  intro pts
  induction pts with
  | nil => intro p _ _ _; simp [interpSeg]
  | cons q rest ih =>
    intro p hlt hdec hpt
    have h1 : p.1 < q.1 := (List.chain'_cons.mp hlt).1
    have h2 : q.2 ≤ p.2 := (List.chain'_cons.mp hdec).1
    by_cases hq : t ≤ q.1
    · simp only [interpSeg, if_pos hq]
      have hden : 0 < q.1 - p.1 := sub_pos.mpr h1
      have hnum : (q.2 - p.2) * (t - p.1) ≤ 0 :=
        mul_nonpos_of_nonpos_of_nonneg (by linarith) (by linarith)
      have hdiv : (q.2 - p.2) * (t - p.1) / (q.1 - p.1) ≤ 0 :=
        div_nonpos_of_nonpos_of_nonneg hnum hden.le
      linarith
    · simp only [interpSeg, if_neg hq]
      exact le_trans
        (ih q (List.chain'_cons.mp hlt).2 (List.chain'_cons.mp hdec).2 (by linarith))
        h2

theorem interpSeg_anti (t t' : ℚ) (htt : t ≤ t') :
    ∀ (pts : List (ℚ × ℚ)) (p : ℚ × ℚ),
    List.Chain' (fun a b : ℚ × ℚ => a.1 < b.1) (p :: pts) →
    List.Chain' (fun a b : ℚ × ℚ => b.2 ≤ a.2) (p :: pts) →
    p.1 ≤ t → interpSeg t' p pts ≤ interpSeg t p pts := by
  intro pts
  induction pts with
  | nil => intro p _ _ _; simp [interpSeg]
  | cons q rest ih =>
    intro p hlt hdec hpt
    have h1 : p.1 < q.1 := (List.chain'_cons.mp hlt).1
    have h2 : q.2 ≤ p.2 := (List.chain'_cons.mp hdec).1
    have hden : 0 < q.1 - p.1 := sub_pos.mpr h1
    by_cases ht' : t' ≤ q.1
    · have ht : t ≤ q.1 := le_trans htt ht'
      simp only [interpSeg, if_pos ht', if_pos ht]
      have hm : (q.2 - p.2) * (t' - p.1) ≤ (q.2 - p.2) * (t - p.1) :=
        mul_le_mul_of_nonpos_left (by linarith) (by linarith)
      have hd : (q.2 - p.2) * (t' - p.1) / (q.1 - p.1) ≤
          (q.2 - p.2) * (t - p.1) / (q.1 - p.1) :=
        (div_le_div_iff_of_pos_right hden).mpr hm
      linarith
    · by_cases ht : t ≤ q.1
      · simp only [interpSeg, if_pos ht, if_neg ht']
        have hL : interpSeg t' q rest ≤ q.2 :=
          interpSeg_le_head t' rest q (List.chain'_cons.mp hlt).2
            (List.chain'_cons.mp hdec).2 (by linarith)
        have hm : (q.2 - p.2) * (q.1 - p.1) ≤ (q.2 - p.2) * (t - p.1) :=
          mul_le_mul_of_nonpos_left (by linarith) (by linarith)
        have hq2 : q.2 - p.2 ≤ (q.2 - p.2) * (t - p.1) / (q.1 - p.1) := by
          rw [le_div_iff₀ hden]
          linarith
        linarith
      · simp only [interpSeg, if_neg ht', if_neg ht]
        exact ih q (List.chain'_cons.mp hlt).2 (List.chain'_cons.mp hdec).2
          (by linarith)

theorem np_interp_anti (xs ys : List ℚ) (t t' : ℚ)
    (hx : List.Chain' (fun a b => a < b) xs)
    (hy : List.Chain' (fun a b => b ≤ a) ys)
    (hb : ∀ y ∈ ys, y ≤ 1) (htt : t ≤ t') :
    np_interp t' xs ys ≤ np_interp t xs ys := by
  unfold np_interp
  cases hz : xs.zip ys with
  | nil => exact le_refl 1
  | cons p rest =>
    have hcl : List.Chain' (fun a b : ℚ × ℚ => a.1 < b.1) (p :: rest) := by
      rw [← hz]; exact chain'_zip_fst xs ys hx
    have hcd : List.Chain' (fun a b : ℚ × ℚ => b.2 ≤ a.2) (p :: rest) := by
      rw [← hz]; exact chain'_zip_snd xs ys hy
    have hp2 : p.2 ≤ 1 := by
      have hpz : p ∈ xs.zip ys := by
        rw [hz]; exact List.mem_cons_self p rest
      obtain ⟨a, b⟩ := p
      exact hb b (List.of_mem_zip hpz).2
    show (if t' < p.1 then 1 else interpSeg t' p rest) ≤
      (if t < p.1 then 1 else interpSeg t p rest)
    by_cases h1 : t' < p.1
    · have h0 : t < p.1 := lt_of_le_of_lt htt h1
      rw [if_pos h1, if_pos h0]
    · rw [if_neg h1]
      by_cases h0 : t < p.1
      · rw [if_pos h0]
        exact le_trans (interpSeg_le_head t' rest p hcl hcd (not_lt.mp h1)) hp2
      · rw [if_neg h0]
        exact interpSeg_anti t t' htt rest p hcl hcd (not_lt.mp h0)

/-- Claim C7: for every survival step function with sorted increasing knot
abscissae and monotonically non-increasing ordinates in [0,1], the risk
function 1 - interp(t) evaluated by the Projector is monotonically
non-decreasing in t. -/
theorem claim_C7 (survX survY : List ℚ) (t t' : ℚ)
    (hlen : survX.length = survY.length) (hne : survX ≠ [])
    (hsort : List.Chain' (fun a b => a < b) survX)
    (hmono : List.Chain' (fun a b => b ≤ a) survY)
    (hbound : ∀ y ∈ survY, 0 ≤ y ∧ y ≤ 1)
    (htt : t ≤ t') :
    riskAt survX survY t ≤ riskAt survX survY t' := by
  unfold riskAt
  have h := np_interp_anti survX survY t t' hsort hmono
    (fun y hy => (hbound y hy).2) htt
  linarith

/-- Claim C7 (witness): for the two-knot survival function dropping from 1 to
1/2 over the first 10 hours, the risk at hour 3 is at most the risk at hour 7. -/
theorem claim_C7_witness :
    riskAt [0, 10] [1, 1 / 2] 3 ≤ riskAt [0, 10] [1, 1 / 2] 7 :=
  claim_C7 [0, 10] [1, 1 / 2] 3 7 rfl (List.cons_ne_nil 0 [10])
    (by norm_num [List.chain'_cons])
    (by norm_num [List.chain'_cons])
    (by
      intro y hy
      simp only [List.mem_cons, List.mem_singleton, List.not_mem_nil, or_false] at hy
      rcases hy with rfl | rfl <;> norm_num)
    (by norm_num)

end CRAC
